import Mathlib

/-!
A shallow embedding of the log-analysis engine of `json_logs_mcp_server.py`
(class `JsonLogAnalyzer`), together with proofs about the embedded code.

Modelling conventions:
* Python values that can appear in a decoded log record are modelled by the
  inductive type `Json` (JSON numbers are restricted to integers; no log
  analysis path in the program depends on fractional number literals).
* Python exceptions are modelled by `Except PyErr`; an exception that the
  source catches is translated exactly where the corresponding
  `try`/`except` sits.
* The standard library pieces the engine calls (`json.loads`,
  `datetime.fromisoformat`, `datetime.isoformat`, `strftime`) are external
  to the repository and are abstracted as the fields of `PyLib`; timestamps
  are instants measured as integers (microseconds).  `datetime.max` /
  `datetime.min` are the fields `dtMax` / `dtMin`.
* Python `str` operations used by the engine (strip/upper/lower, substring
  test, lexicographic comparison by code point) are re-implemented on
  `String.data` so that every definition evaluates inside the kernel.
* `list.sort(key=..., reverse=True)` and `sorted(...)` are stable sorts; a
  stable sort is uniquely determined by the comparison, so they are modelled
  by the stable insertion sort `stableSort`.
-/

namespace JsonLogs

/-- ASCII whitespace test used to model Python's `str.strip`. -/
def charIsSpace (c : Char) : Bool :=
  c = ' ' || c = '\t' || c = '\n' || c = '\r' || c = '\x0b' || c = '\x0c'

/-- Model of Python `str.strip()` (ASCII whitespace). -/
def pyStrip (s : String) : String :=
  ⟨(s.data.dropWhile charIsSpace).reverse.dropWhile charIsSpace |>.reverse⟩

/-- ASCII uppercasing of one character, modelling `str.upper` per character. -/
def charUpper (c : Char) : Char :=
  if 'a' ≤ c && c ≤ 'z' then Char.ofNat (c.toNat - 32) else c

/-- ASCII lowercasing of one character, modelling `str.lower` per character. -/
def charLower (c : Char) : Char :=
  if 'A' ≤ c && c ≤ 'Z' then Char.ofNat (c.toNat + 32) else c

/-- Model of Python `str.upper()` (ASCII range). -/
def pyUpper (s : String) : String := ⟨s.data.map charUpper⟩

/-- Model of Python `str.lower()` (ASCII range). -/
def pyLower (s : String) : String := ⟨s.data.map charLower⟩

/-- Here `isPrefixPart l₁ l₂` is true when `l₁` is a prefix of `l₂` (on characters). -/
def isPrefixPart : List Char → List Char → Bool
  | [], _ => true
  | _ :: _, [] => false
  | a :: as, b :: bs => a = b && isPrefixPart as bs

/-- The test `isSubPart needle hay`: contiguous-substring test, modelling Python's
`needle in hay` on strings. -/
def isSubPart (needle : List Char) : List Char → Bool
  | [] => isPrefixPart needle []
  | c :: cs => isPrefixPart needle (c :: cs) || isSubPart needle cs

/-- Model of Python `needle in hay` for strings. -/
def strContainsSub (hay needle : String) : Bool := isSubPart needle.data hay.data

/-- Lexicographic `≤` on character lists by code point, modelling Python
string comparison. -/
def lexLe : List Char → List Char → Bool
  | [], _ => true
  | _ :: _, [] => false
  | a :: as, b :: bs => if a < b then true else if b < a then false else lexLe as bs

/-- Model of Python `s <= t` on strings. -/
def strLe (s t : String) : Bool := lexLe s.data t.data

/-- Insert an element into a sorted list, keeping earlier elements first on
ties (`le a b = true` for equal keys). -/
def insertSorted (le : α → α → Bool) (a : α) : List α → List α
  | [] => [a]
  | b :: bs => if le a b then a :: b :: bs else b :: insertSorted le a bs

/-- Stable insertion sort.  Python's `list.sort`/`sorted` are stable sorts;
a stable sort is uniquely determined by its comparison, so this models them
exactly. -/
def stableSort (le : α → α → Bool) : List α → List α
  | [] => []
  | a :: as => insertSorted le a (stableSort le as)

theorem insertSorted_perm (le : α → α → Bool) (a : α) (l : List α) :
    (insertSorted le a l).Perm (a :: l) := by
  induction l with
  | nil => exact List.Perm.refl _
  | cons b bs ih =>
    by_cases h : le a b = true
    · simp [insertSorted, h]
    · simp only [insertSorted, h, if_false]
      exact (List.Perm.cons b ih).trans (List.Perm.swap a b bs)

theorem stableSort_perm (le : α → α → Bool) (l : List α) :
    (stableSort le l).Perm l := by
  induction l with
  | nil => exact List.Perm.refl _
  | cons a as ih =>
    exact ((insertSorted_perm le a _).trans (List.Perm.cons a ih))

theorem mem_insertSorted {le : α → α → Bool} {a x : α} {l : List α}
    (h : x ∈ insertSorted le a l) : x = a ∨ x ∈ l := by
  have := (insertSorted_perm le a l).mem_iff.mp h
  simpa using this

theorem insertSorted_pairwise {le : α → α → Bool}
    (htrans : ∀ a b c, le a b = true → le b c = true → le a c = true)
    (htot : ∀ a b, le a b = true ∨ le b a = true)
    {a : α} {l : List α} (hl : l.Pairwise (fun x y => le x y = true)) :
    (insertSorted le a l).Pairwise (fun x y => le x y = true) := by
  induction l with
  | nil => simp [insertSorted]
  | cons b bs ih =>
    rcases List.pairwise_cons.mp hl with ⟨hb, hbs⟩
    by_cases h : le a b = true
    · simp only [insertSorted, h, if_true]
      refine List.pairwise_cons.mpr ⟨?_, hl⟩
      intro y hy
      rcases List.mem_cons.mp hy with rfl | hy
      · exact h
      · exact htrans _ _ _ h (hb y hy)
    · have hba : le b a = true := (htot a b).resolve_left h
      simp only [insertSorted, h, if_false]
      refine List.pairwise_cons.mpr ⟨?_, ih hbs⟩
      intro y hy
      rcases mem_insertSorted hy with rfl | hy
      · exact hba
      · exact hb y hy

theorem stableSort_pairwise {le : α → α → Bool}
    (htrans : ∀ a b c, le a b = true → le b c = true → le a c = true)
    (htot : ∀ a b, le a b = true ∨ le b a = true) (l : List α) :
    (stableSort le l).Pairwise (fun x y => le x y = true) := by
  induction l with
  | nil => simp [stableSort]
  | cons a as ih => exact insertSorted_pairwise htrans htot ih

/-- Python values that can appear in a decoded log record: the result of
`json.loads` (numbers restricted to integers; the engine never computes
with fractional number literals). -/
inductive Json where
  | null
  | bool (b : Bool)
  | num (n : Int)
  | str (s : String)
  | arr (elems : List Json)
  | obj (fields : List (String × Json))

/-- The Python exceptions the engine can raise or catch.
`json.JSONDecodeError` is a subclass of `ValueError` and is represented by
`valueError` where it matters. -/
inductive PyErr where
  | typeError
  | keyError
  | valueError
  | attributeError
  | fileNotFound (name : String)
  | runtimeError
deriving DecidableEq

/-- Python `field in entry` for a decoded JSON value: key membership for a
dict, element equality for a list, substring test for a string, and
`TypeError` ("argument of type ... is not iterable") for the remaining
types. -/
def Json.hasField (j : Json) (field : String) : Except PyErr Bool :=
  match j with
  | .obj kvs => .ok (kvs.any fun kv => kv.1 = field)
  | .arr xs => .ok (xs.any fun x => match x with | .str t => t = field | _ => false)
  | .str s => .ok (strContainsSub s field)
  | _ => .error .typeError

/-- Python `entry[key]` with a string key: dict lookup (`KeyError` on a
missing key), `TypeError` for every non-dict value. -/
def Json.getItem (j : Json) (k : String) : Except PyErr Json :=
  match j with
  | .obj kvs =>
    match kvs.find? (fun kv => kv.1 = k) with
    | some kv => .ok kv.2
    | none => .error .keyError
  | _ => .error .typeError

/-- The standard-library collaborators of the engine, abstracted.
Timestamps are instants in integer microseconds. -/
structure PyLib where
  /-- Model of `json.loads`; `none` models `json.JSONDecodeError`.  A returned
  `Json.obj` has the key-uniqueness of a Python dict. -/
  loads : String → Option Json
  /-- Model of `datetime.fromisoformat` on a string; `none` models `ValueError`. -/
  fromiso : String → Option Int
  /-- Model of `datetime.isoformat`. -/
  iso : Int → String
  /-- Model of `datetime.strftime "%Y-%m-%d %H:00"`. -/
  fmtHour : Int → String
  /-- The value `datetime.min` as an instant. -/
  dtMin : Int
  /-- The value `datetime.max` as an instant. -/
  dtMax : Int

/-- A parsed log entry: the decoded dict.  The `parsed_timestamp` key the
parser adds (a datetime, not a JSON value) is kept as the separate field
`parsedTimestamp`; `fields` holds the JSON fields of the source record.
(The only divergence: a caller-supplied `group_by = "parsed_timestamp"`
would in Python look up the datetime through the dict; that key is not
reachable through `fields` here.) -/
structure Entry where
  fields : List (String × Json)
  parsedTimestamp : Option Int

/-- Python `entry.get(k, d)` on a parsed entry. -/
def entryGet (e : Entry) (k : String) (d : Json) : Json :=
  match e.fields.find? (fun kv => kv.1 = k) with
  | some kv => kv.2
  | none => d

/-- The list `required_fields` of `parse_log_entry`. -/
def requiredFields : List String :=
  ["timestamp", "level", "message", "module", "function", "line"]

/-- Model of `all(field in entry for field in required_fields)`: short-circuit
conjunction, propagating the exceptions of `in`. -/
def checkFields (j : Json) : List String → Except PyErr Bool
  | [] => .ok true
  | f :: fs =>
    match j.hasField f with
    | .error e => .error e
    | .ok false => .ok false
    | .ok true => checkFields j fs

/-- Body of the `try` block of `parse_log_entry`, after `json.loads`
succeeded: validate required fields, then
`entry["parsed_timestamp"] = datetime.fromisoformat(entry["timestamp"])`
and return the entry. -/
def parseBody (lib : PyLib) (j : Json) : Except PyErr (Option Entry) :=
  match checkFields j requiredFields with
  | .error e => .error e
  | .ok false => .ok none
  | .ok true =>
    match j.getItem "timestamp" with
    | .error e => .error e
    | .ok ts =>
      match ts with
      | .str s =>
        match lib.fromiso s with
        | none => .error .valueError
        | some t =>
          match j with
          | .obj kvs => .ok (some ⟨kvs, some t⟩)
          | _ => .error .typeError
      | _ => .error .typeError

/-- Model of `except (json.JSONDecodeError, ValueError, KeyError): pass` around the
body: those exceptions fall through to `return None`; anything else (in
particular `TypeError`) propagates. -/
def catchParse (r : Except PyErr (Option Entry)) : Except PyErr (Option Entry) :=
  match r with
  | .error .keyError => .ok none
  | .error .valueError => .ok none
  | r => r

/-- Model of `JsonLogAnalyzer.parse_log_entry`. -/
def parse_log_entry (lib : PyLib) (line : String) : Except PyErr (Option Entry) :=
  match lib.loads (pyStrip line) with
  | none => .ok none
  | some j => catchParse (parseBody lib j)

/-- One regular file of the log directory: its base name, `stat` data
(size, and modification time already serialized with
`datetime.fromtimestamp(...).isoformat()`), and its text split into lines. -/
structure FileEnt where
  name : String
  size : Nat
  modified : String
  lines : List String

/-- The configured log directory as seen on disk.  `nodup` records that a
directory cannot hold two files of the same name. -/
structure FS where
  dirExists : Bool
  files : List FileEnt
  nodup : (files.map FileEnt.name).Nodup

/-- One value of `log_files_cache`: `{"path", "name", "size", "modified"}`. -/
structure FileInfo where
  path : String
  name : String
  size : Nat
  modified : String
deriving DecidableEq

/-- The analyzer state: the configured directory and `log_files_cache`
(an insertion-ordered dict from file name to `FileInfo`). -/
structure Analyzer where
  logDirectory : String
  cache : List (String × FileInfo)

/-- Model of `self.log_directory.glob("*.log*")`: the pattern matches exactly the
names containing `.log` as a contiguous substring. -/
def matchesLogGlob (name : String) : Bool := strContainsSub name ".log"

/-- The dict value `_refresh_log_files` builds for one directory entry:
`{"path": str(file_path), "name": ..., "size": stat.st_size,
"modified": datetime.fromtimestamp(stat.st_mtime).isoformat()}`. -/
def mkFileInfo (dir : String) (f : FileEnt) : FileInfo :=
  ⟨dir ++ "/" ++ f.name, f.name, f.size, f.modified⟩

/-- Body of `_refresh_log_files`: scan the directory (empty result if it
does not exist), build a descriptor per `*.log*` file, sort by the
`modified` string descending (`reverse=True`; ISO-8601 strings compare
chronologically), and key the dict by name. -/
def refreshCache (dir : String) (fs : FS) : List (String × FileInfo) :=
  if fs.dirExists then
    let logFiles := (fs.files.filter fun f => matchesLogGlob f.name).map (mkFileInfo dir)
    let sorted := stableSort (fun a b => strLe b.modified a.modified) logFiles
    sorted.map fun f => (f.name, f)
  else []

/-- Model of `_refresh_log_files` as a state update. -/
def Analyzer.refreshed (a : Analyzer) (fs : FS) : Analyzer :=
  { a with cache := refreshCache a.logDirectory fs }

/-- Model of `JsonLogAnalyzer.get_log_files`: refresh, then
`list(self.log_files_cache.values())`. -/
def get_log_files (a : Analyzer) (fs : FS) : List FileInfo × Analyzer :=
  let a! := a.refreshed fs
  (a!.cache.map Prod.snd, a!)

/-- Python truthiness of the optional `max_lines` int (`None` and `0` are
falsy). -/
def truthyInt : Option Int → Bool
  | none => false
  | some n => n ≠ 0

/-- The `for i, line in enumerate(f)` loop of `read_log_file`, started at
line index `i`.  Returns the parsed entries (or the first uncaught parser
exception) together with the number of raw lines examined; the loop breaks
when `max_lines` is truthy and `i >= max_lines`. -/
def readLines (lib : PyLib) (maxLines : Option Int) :
    List String → Int → Except PyErr (List Entry) × Nat
  | [], _ => (.ok [], 0)
  | l :: ls, i =>
    if truthyInt maxLines ∧ i ≥ maxLines.getD 0 then (.ok [], 0)
    else
      match parse_log_entry lib l with
      | .error e => (.error e, 1)
      | .ok oe =>
        match readLines lib maxLines ls (i + 1) with
        | (.ok rest, n) =>
          (.ok (match oe with | some en => en :: rest | none => rest), n + 1)
        | (.error e, n) => (.error e, n + 1)

/-- The outcome of `read_log_file`: its return value or exception, the
analyzer state afterwards, how many times `_refresh_log_files` ran, and how
many raw lines were examined. -/
structure ReadRes where
  result : Except PyErr (List Entry)
  analyzer : Analyzer
  refreshes : Nat
  examined : Nat

/-- Body of `read_log_file` after the name resolved in the cache: open the cached
path (the file of that name in the directory; `RuntimeError` if it is gone)
and run the parse loop, converting any exception from it to `RuntimeError`
(`except Exception as e: raise RuntimeError(...)`). -/
def readResolved (lib : PyLib) (a : Analyzer) (fs : FS) (filename : String)
    (maxLines : Option Int) (refreshes : Nat) : ReadRes :=
  match fs.files.find? (fun f => f.name = filename) with
  | none => ⟨.error .runtimeError, a, refreshes, 0⟩
  | some fe =>
    match readLines lib maxLines fe.lines 0 with
    | (.ok es, n) => ⟨.ok es, a, refreshes, n⟩
    | (.error _, n) => ⟨.error .runtimeError, a, refreshes, n⟩

/-- Model of `JsonLogAnalyzer.read_log_file`: on a cache miss refresh once and retry;
if the name is still missing raise `FileNotFoundError`. -/
def read_log_file (lib : PyLib) (a : Analyzer) (fs : FS) (filename : String)
    (maxLines : Option Int) : ReadRes :=
  match a.cache.find? (fun p => p.1 = filename) with
  | some _ => readResolved lib a fs filename maxLines 0
  | none =>
    let a! := a.refreshed fs
    match a!.cache.find? (fun p => p.1 = filename) with
    | some _ => readResolved lib a! fs filename maxLines 1
    | none => ⟨.error (.fileNotFound filename), a!, 1, 0⟩

/-- Python truthiness of an optional string filter value (`None` and the
empty string are falsy, so `if level:` skips both). -/
def truthyStr : Option String → Bool
  | none => false
  | some s => s ≠ ""

/-- The keyword arguments of `query_logs`; `limit` is `none` when the
caller leaves the default (100) in place. -/
structure QueryArgs where
  files : Option (List String)
  level : Option String
  module : Option String
  function : Option String
  message_contains : Option String
  start_time : Option String
  end_time : Option String
  limit : Option Int

/-- Python `value != s` between a decoded JSON value and a string
(`False`-producing cross-type comparison, equality only between strings),
returned as "the values are equal". -/
def jsonEqStr (j : Json) (s : String) : Bool :=
  match j with
  | .str t => t = s
  | _ => false

/-- The level filter of the query loop:
`if level and entry.get("level", "").upper() != level.upper(): continue`.
`.upper()` on a non-string entry value raises `AttributeError`. -/
def passLevel (q : QueryArgs) (e : Entry) : Except PyErr Bool :=
  if truthyStr q.level then
    match entryGet e "level" (.str "") with
    | .str s => .ok (pyUpper s = pyUpper (q.level.getD ""))
    | _ => .error .attributeError
  else .ok true

/-- The module filter: `if module and entry.get("module", "") != module`. -/
def passModule (q : QueryArgs) (e : Entry) : Bool :=
  !truthyStr q.module || jsonEqStr (entryGet e "module" (.str "")) (q.module.getD "")

/-- The function filter, same shape as the module filter. -/
def passFunction (q : QueryArgs) (e : Entry) : Bool :=
  !truthyStr q.function || jsonEqStr (entryGet e "function" (.str "")) (q.function.getD "")

/-- The message filter: `if message_contains and
message_contains.lower() not in entry.get("message", "").lower()`. -/
def passMessage (q : QueryArgs) (e : Entry) : Except PyErr Bool :=
  if truthyStr q.message_contains then
    match entryGet e "message" (.str "") with
    | .str s => .ok (strContainsSub (pyLower s) (pyLower (q.message_contains.getD "")))
    | _ => .error .attributeError
  else .ok true

/-- The start-time filter: parse the bound per entry, ignore it on
`ValueError`, and skip the entry only when it has a timestamp below the
bound (`if timestamp and timestamp < start_dt: continue`). -/
def passStart (lib : PyLib) (q : QueryArgs) (e : Entry) : Bool :=
  if truthyStr q.start_time then
    match lib.fromiso (q.start_time.getD "") with
    | some sd =>
      match e.parsedTimestamp with
      | some t => decide (sd ≤ t)
      | none => true
    | none => true
  else true

/-- The end-time filter, symmetric to `passStart`. -/
def passEnd (lib : PyLib) (q : QueryArgs) (e : Entry) : Bool :=
  if truthyStr q.end_time then
    match lib.fromiso (q.end_time.getD "") with
    | some ed =>
      match e.parsedTimestamp with
      | some t => decide (t ≤ ed)
      | none => true
    | none => true
  else true

/-- One pass of the query filter loop over one entry: the filters run in
source order with `continue` short-circuiting, and an entry reaches
`filtered_entries.append` exactly when every filter passed. -/
def entryPass (lib : PyLib) (q : QueryArgs) (e : Entry) : Except PyErr Bool :=
  match passLevel q e with
  | .error er => .error er
  | .ok false => .ok false
  | .ok true =>
    if !passModule q e then .ok false
    else if !passFunction q e then .ok false
    else
      match passMessage q e with
      | .error er => .error er
      | .ok false => .ok false
      | .ok true =>
        if !passStart lib q e then .ok false
        else if !passEnd lib q e then .ok false
        else .ok true

/-- The whole filter loop of `query_logs` over `all_entries`. -/
def filterEntries (lib : PyLib) (q : QueryArgs) : List Entry → Except PyErr (List Entry)
  | [] => .ok []
  | e :: es =>
    match entryPass lib q e with
    | .error er => .error er
    | .ok b =>
      match filterEntries lib q es with
      | .error er => .error er
      | .ok rest => .ok (if b then e :: rest else rest)

/-- The `if files is None: files = list(self.log_files_cache.keys())`
defaulting shared by `query_logs`, `aggregate_logs` and `get_log_stats`. -/
def selectedFiles (a : Analyzer) (files : Option (List String)) : List String :=
  match files with
  | none => a.cache.map Prod.fst
  | some l => l

/-- The per-file collection loop shared by `query_logs`, `aggregate_logs`
and `get_log_stats`: read each file, extend `all_entries`, and skip a file
on `FileNotFoundError` or `RuntimeError`. -/
def collectEntries (lib : PyLib) (a : Analyzer) (fs : FS) :
    List String → List Entry × Analyzer
  | [] => ([], a)
  | f :: rest =>
    let r := read_log_file lib a fs f none
    match r.result with
    | .ok es =>
      let (others, a!) := collectEntries lib r.analyzer fs rest
      (es ++ others, a!)
    | .error _ => collectEntries lib r.analyzer fs rest

/-- The sort key of `query_logs`:
`x.get("parsed_timestamp", datetime.min)`. -/
def sortKey (lib : PyLib) (e : Entry) : Int := e.parsedTimestamp.getD lib.dtMin

/-- Python `l[:n]` for an `int` bound: the first `n` elements when
`n >= 0`, everything but the last `-n` elements when `n < 0`. -/
def pySliceTo (l : List α) (n : Int) : List α :=
  if 0 ≤ n then l.take n.toNat else l.take (l.length - (-n).toNat)

/-- Model of `JsonLogAnalyzer.query_logs`: collect the entries of the selected files
(all cached names when `files is None`), filter, sort newest-first by the
parsed timestamp (stable, `reverse=True`), and truncate to `limit`. -/
def query_logs (lib : PyLib) (a : Analyzer) (fs : FS) (q : QueryArgs) :
    Except PyErr (List Entry) × Analyzer :=
  let fileNames := selectedFiles a q.files
  let (allEntries, a!) := collectEntries lib a fs fileNames
  match filterEntries lib q allEntries with
  | .error er => (.error er, a!)
  | .ok filtered =>
    let sorted := stableSort (fun x y => decide (sortKey lib y ≤ sortKey lib x)) filtered
    (.ok (pySliceTo sorted (q.limit.getD 100)), a!)

/-- Model of `round(x, 2)` on the exact rational value: rounding to the nearest
multiple of 1/100.  (The source computes on floats; the embedding uses
exact rationals, with ties rounded by Mathlib's `round`.) -/
def round2 (q : ℚ) : ℚ := ((round (q * 100) : ℤ) : ℚ) / 100

/-- Python hashability of a decoded value: lists and dicts cannot be dict
keys or set elements (`TypeError: unhashable type`). -/
def hashable : Json → Bool
  | .arr _ => false
  | .obj _ => false
  | _ => true

/-- Python `==` between two hashable decoded values, as used for dict-key
and set-element identity.  `True == 1` and `False == 0` hold in Python. -/
def scalarEq : Json → Json → Bool
  | .null, .null => true
  | .bool a, .bool b => a = b
  | .num a, .num b => a = b
  | .str a, .str b => a = b
  | .bool a, .num b => (if a then (1 : Int) else 0) = b
  | .num a, .bool b => a = (if b then (1 : Int) else 0)
  | _, _ => false

/-- The grouping key of `aggregate_logs` for one entry (the `elif` chain on
`group_by`).  An entry with no parseable timestamp cannot arise from the
parser, but the `"UNKNOWN"` fallback of the `hour` branch is kept. -/
def groupKey (lib : PyLib) (group_by : String) (e : Entry) : Json :=
  if group_by = "level" then entryGet e "level" (.str "UNKNOWN")
  else if group_by = "module" then entryGet e "module" (.str "UNKNOWN")
  else if group_by = "function" then entryGet e "function" (.str "UNKNOWN")
  else if group_by = "hour" then
    match e.parsedTimestamp with
    | some t => .str (lib.fmtHour t)
    | none => .str "UNKNOWN"
  else entryGet e group_by (.str "UNKNOWN")

/-- Model of `groups[key].append(entry)`, with `groups[key] = []` on a fresh key:
append `e` to the bucket of `key` in an insertion-ordered dict. -/
def insertGroup (key : Json) (e : Entry) :
    List (Json × List Entry) → List (Json × List Entry)
  | [] => [(key, [e])]
  | (k, es) :: rest =>
    if scalarEq k key then (k, es ++ [e]) :: rest
    else (k, es) :: insertGroup key e rest

/-- The grouping loop of `aggregate_logs`, entries processed in order with
`gs` the insertion-ordered dict built so far; hashing an unhashable key
raises `TypeError`. -/
def buildGroupsLoop (lib : PyLib) (group_by : String) :
    List Entry → List (Json × List Entry) → Except PyErr (List (Json × List Entry))
  | [], gs => .ok gs
  | e :: es, gs =>
    let key := groupKey lib group_by e
    if hashable key then buildGroupsLoop lib group_by es (insertGroup key e gs)
    else .error .typeError

/-- The `groups` dict of `aggregate_logs` after the grouping loop. -/
def buildGroups (lib : PyLib) (group_by : String)
    (entries : List Entry) : Except PyErr (List (Json × List Entry)) :=
  buildGroupsLoop lib group_by entries []

/-- Model of `min(e.get("parsed_timestamp", datetime.max) for e in entries)
 .isoformat() if entries else None`. -/
def groupFirstSeen (lib : PyLib) (es : List Entry) : Option String :=
  match es.map (fun e => e.parsedTimestamp.getD lib.dtMax) with
  | [] => none
  | t :: ts => some (lib.iso (ts.foldl min t))

/-- Model of `max(e.get("parsed_timestamp", datetime.min) for e in entries)
 .isoformat() if entries else None`. -/
def groupLastSeen (lib : PyLib) (es : List Entry) : Option String :=
  match es.map (fun e => e.parsedTimestamp.getD lib.dtMin) with
  | [] => none
  | t :: ts => some (lib.iso (ts.foldl max t))

/-- One value of the `groups` mapping of an aggregation result. -/
structure GroupStat where
  count : Nat
  percentage : ℚ
  first_seen : Option String
  last_seen : Option String

/-- The return value of `aggregate_logs`. -/
structure AggResult where
  group_by : String
  total_entries : Nat
  groups : List (Json × GroupStat)

/-- The per-group statistics block of `aggregate_logs`. -/
def groupStat (lib : PyLib) (total : Nat) (es : List Entry) : GroupStat :=
  { count := es.length
    percentage := if total ≠ 0 then round2 (((es.length : ℚ) / (total : ℚ)) * 100) else 0
    first_seen := groupFirstSeen lib es
    last_seen := groupLastSeen lib es }

/-- Model of `JsonLogAnalyzer.aggregate_logs`. -/
def aggregate_logs (lib : PyLib) (a : Analyzer) (fs : FS)
    (files : Option (List String)) (group_by : String) :
    Except PyErr AggResult × Analyzer :=
  let fileNames := selectedFiles a files
  let (allEntries, a!) := collectEntries lib a fs fileNames
  match buildGroups lib group_by allEntries with
  | .error er => (.error er, a!)
  | .ok gs =>
    (.ok { group_by := group_by
           total_entries := allEntries.length
           groups := gs.map fun p => (p.1, groupStat lib allEntries.length p.2) }, a!)

/-- Model of `levels[level] = levels.get(level, 0) + 1` on an insertion-ordered
dict. -/
def bumpLevel (lv : Json) : List (Json × Nat) → List (Json × Nat)
  | [] => [(lv, 1)]
  | (k, n) :: rest =>
    if scalarEq k lv then (k, n + 1) :: rest else (k, n) :: bumpLevel lv rest

/-- Model of `s.add(v)` on a Python set, modelled as an insertion-ordered list of
distinct values (the iteration order of a real set is immaterial here: the
module set is sorted afterwards and the function set only counted). -/
def addSet (v : Json) (s : List Json) : List Json :=
  if s.any (scalarEq v) then s else s ++ [v]

/-- Mutual comparability of two set elements under Python `<`
(strings with strings, numbers and booleans with each other). -/
def scalarComparable : Json → Json → Bool
  | .str _, .str _ => true
  | .str _, _ => false
  | _, .str _ => false
  | .null, _ => false
  | _, .null => false
  | _, _ => true

/-- Python `a <= b` on mutually comparable set elements (booleans compare
as 0/1). -/
def scalarLe (a b : Json) : Bool :=
  match a, b with
  | .str s, .str t => strLe s t
  | a, b =>
    match a, b with
    | .num x, .num y => x ≤ y
    | .num x, .bool y => x ≤ (if y then 1 else 0)
    | .bool x, .num y => (if x then (1 : Int) else 0) ≤ y
    | .bool x, .bool y => (if x then (1 : Int) else 0) ≤ (if y then 1 else 0)
    | _, _ => false

/-- Model of `sorted(list(modules))`.  Python's `sorted` performs no
comparisons on a list of fewer than two elements, so such lists always
succeed.  For two or more elements — here always distinct hashable
scalars, since they come from a set — binary insertion compares every
element with at least one other and keeps the sorted prefix single-kinded,
so it raises `TypeError` exactly when some pair is incomparable (`None` is
incomparable even with itself, and the one `None` a set can hold is always
compared against something); otherwise it is the stable ascending sort. -/
def pySortedJson (l : List Json) : Except PyErr (List Json) :=
  if l.length ≤ 1 then .ok l
  else if l.all (fun a => l.all (scalarComparable a)) then .ok (stableSort scalarLe l)
  else .error .typeError

/-- The running accumulator of `get_log_stats`. -/
structure StatsAcc where
  total : Nat
  levels : List (Json × Nat)
  modules : List Json
  functions : List Json
  earliest : Option Int
  latest : Option Int

/-- The per-entry body of the `get_log_stats` loop: count the level,
collect module and function, and track the running time range; hashing an
unhashable value raises `TypeError` (uncaught: the per-file `except` only
handles `FileNotFoundError` and `RuntimeError`). -/
def statsEntry (acc : StatsAcc) (e : Entry) : Except PyErr StatsAcc :=
  let lv := entryGet e "level" (.str "UNKNOWN")
  if hashable lv then
    let md := entryGet e "module" (.str "UNKNOWN")
    if hashable md then
      let fn := entryGet e "function" (.str "UNKNOWN")
      if hashable fn then
        let acc :=
          { acc with
            levels := bumpLevel lv acc.levels
            modules := addSet md acc.modules
            functions := addSet fn acc.functions }
        match e.parsedTimestamp with
        | none => .ok acc
        | some t =>
          .ok { acc with
                earliest := some (match acc.earliest with
                  | none => t
                  | some cur => if t < cur then t else cur)
                latest := some (match acc.latest with
                  | none => t
                  | some cur => if t > cur then t else cur) }
      else .error .typeError
    else .error .typeError
  else .error .typeError

/-- The per-file loop of `get_log_stats`: read each file (skipping it on
`FileNotFoundError`/`RuntimeError`), add `len(entries)` to the total, then
fold the entry body (whose `TypeError` propagates). -/
def statsFiles (lib : PyLib) (a : Analyzer) (fs : FS) :
    List String → StatsAcc → Except PyErr StatsAcc × Analyzer
  | [], acc => (.ok acc, a)
  | f :: rest, acc =>
    let r := read_log_file lib a fs f none
    match r.result with
    | .error _ => statsFiles lib r.analyzer fs rest acc
    | .ok es =>
      match es.foldlM statsEntry { acc with total := acc.total + es.length } with
      | .error er => (.error er, r.analyzer)
      | .ok acc! => statsFiles lib r.analyzer fs rest acc!

/-- The `time_range` block of a `get_log_stats` result. -/
structure TimeRange where
  earliest : Option String
  latest : Option String
  span_hours : Option ℚ
deriving DecidableEq

/-- The return value of `get_log_stats`. -/
structure CorpusStats where
  total_files : Nat
  total_entries : Nat
  levels : List (Json × Nat)
  unique_modules : List Json
  unique_functions : Nat
  time_range : TimeRange

/-- Model of `JsonLogAnalyzer.get_log_stats`. -/
def get_log_stats (lib : PyLib) (a : Analyzer) (fs : FS)
    (files : Option (List String)) : Except PyErr CorpusStats × Analyzer :=
  let fileNames := selectedFiles a files
  match statsFiles lib a fs fileNames ⟨0, [], [], [], none, none⟩ with
  | (.error er, a!) => (.error er, a!)
  | (.ok acc, a!) =>
    match pySortedJson acc.modules with
    | .error er => (.error er, a!)
    | .ok mods =>
      (.ok { total_files := fileNames.length
             total_entries := acc.total
             levels := acc.levels
             unique_modules := mods
             unique_functions := acc.functions.length
             time_range :=
               { earliest := acc.earliest.map lib.iso
                 latest := acc.latest.map lib.iso
                 span_hours :=
                   match acc.earliest, acc.latest with
                   | some e, some l =>
                     some (round2 ((((l - e : Int) : ℚ) / 1000000) / 3600))
                   | _, _ => none } }, a!)

/-! ### Concrete fixtures

A concrete `PyLib` and small directories used by witnesses and
counterexamples.  `lib1.loads` and `lib1.fromiso` agree with the behaviour
of `json.loads` / `datetime.fromisoformat` on the inputs they are applied
to: `"5"` is valid JSON denoting the integer `5`; `"L1"`/`"L2"` stand for
two syntactically valid log lines (spelled out in the decoded objects);
every other line is invalid JSON, and every string except `"T1"`/`"T2"` is
not ISO-8601. -/

def kvs1 : List (String × Json) :=
  [("timestamp", .str "T2"), ("level", .str "INFO"), ("message", .str "hello"),
   ("module", .str "m"), ("function", .str "f"), ("line", .num 1)]

def kvs2 : List (String × Json) :=
  [("timestamp", .str "T1"), ("level", .str "ERROR"), ("message", .str "boom"),
   ("module", .str "m"), ("function", .str "g"), ("line", .num 2)]

def lineObj1 : Json := .obj kvs1

def lineObj2 : Json := .obj kvs2

def lib1 : PyLib where
  loads := fun s =>
    if s = "L1" then some lineObj1
    else if s = "L2" then some lineObj2
    else if s = "5" then some (.num 5)
    else none
  fromiso := fun s => if s = "T1" then some 1000 else if s = "T2" then some 2000 else none
  iso := fun t => toString t
  fmtHour := fun _ => "H"
  dtMin := -1000000
  dtMax := 1000000

/-- The entry `parse_log_entry lib1 "L1"` produces. -/
def entry1 : Entry := ⟨kvs1, some 2000⟩

/-- The entry `parse_log_entry lib1 "L2"` produces. -/
def entry2 : Entry := ⟨kvs2, some 1000⟩

/-- A directory holding one log file `app.log` whose two lines decode to
`entry1` (newer) and `entry2` (older). -/
def fs1 : FS := ⟨true, [⟨"app.log", 10, "M1", ["L1", "L2"]⟩], by decide⟩

/-- An analyzer whose cache already lists `app.log` of `fs1`. -/
def an1 : Analyzer :=
  ⟨"/logs", [("app.log", ⟨"/logs/app.log", "app.log", 10, "M1"⟩)]⟩

/-- An empty, existing directory with an analyzer holding an empty cache. -/
def fsEmpty : FS := ⟨true, [], by decide⟩

/-- The analyzer that goes with `fsEmpty`. -/
def anEmpty : Analyzer := ⟨"/logs", []⟩

example : parse_log_entry lib1 "L1" = .ok (some entry1) := rfl
example : parse_log_entry lib1 "L2" = .ok (some entry2) := rfl
example : parse_log_entry lib1 "oops" = .ok none := rfl

/-- C1: the claim says `parse(L)` returns absent and never raises to the
caller whenever `L` is valid JSON but not a JSON object (among other
cases).  The code violates this: on the line `"5"` — valid JSON denoting
the integer 5 — `"timestamp" in entry` raises `TypeError` (`argument of
type 'int' is not iterable`), which the `except (json.JSONDecodeError,
ValueError, KeyError)` clause does not catch, so `parse_log_entry` raises
instead of returning `None`. -/
theorem parse_log_entry_raises_on_nonobject :
    parse_log_entry lib1 "5" = .error .typeError := rfl

/-- Every entry the parser returns carries a parsed timestamp. -/
theorem parseBody_isSome_ts {lib : PyLib} {j : Json} {e : Entry}
    (h : parseBody lib j = .ok (some e)) : e.parsedTimestamp.isSome := by
  unfold parseBody at h
  rcases hc : checkFields j requiredFields with er | b
  · rw [hc] at h; simp at h
  · rw [hc] at h
    rcases b with _ | _
    · simp at h
    · rcases hg : j.getItem "timestamp" with er | ts
      · rw [hg] at h; simp at h
      · rw [hg] at h
        rcases ts with _ | _ | _ | s | _ | _ <;> try simp at h
        rcases hf : lib.fromiso s with _ | t
        · rw [hf] at h; simp at h
        · rw [hf] at h
          rcases j with _ | _ | _ | _ | _ | kvs <;> try simp at h
          subst h; rfl

/-- The `parse_log_entry` analogue of `parseBody_isSome_ts`. -/
theorem parse_entry_isSome_ts {lib : PyLib} {line : String} {e : Entry}
    (h : parse_log_entry lib line = .ok (some e)) : e.parsedTimestamp.isSome := by
  unfold parse_log_entry at h
  rcases hl : lib.loads (pyStrip line) with _ | j
  · simp only [hl] at h; simp at h
  · simp only [hl] at h
    rcases hb : parseBody lib j with er | oe
    · rw [hb] at h; cases er <;> simp [catchParse] at h
    · rw [hb] at h
      simp [catchParse] at h
      subst h
      exact parseBody_isSome_ts hb

/-- Every entry produced by the read loop carries a parsed timestamp. -/
theorem readLines_ts {lib : PyLib} {maxL : Option Int} :
    ∀ {lines : List String} {i : Int} {es : List Entry},
      (readLines lib maxL lines i).1 = .ok es →
      ∀ e ∈ es, e.parsedTimestamp.isSome := by
  intro lines
  induction lines with
  | nil =>
    intro i es h e he
    simp only [readLines] at h
    simp at h; subst h; simp at he
  | cons l ls ih =>
    intro i es h e he
    unfold readLines at h
    by_cases hc : truthyInt maxL = true ∧ i ≥ maxL.getD 0
    · rw [if_pos hc] at h; simp at h; subst h; simp at he
    · rw [if_neg hc] at h
      rcases hp : parse_log_entry lib l with er | oe
      · rw [hp] at h; simp at h
      · rw [hp] at h
        rcases hr : readLines lib maxL ls (i + 1) with ⟨r, n⟩
        rw [hr] at h
        rcases r with er | rest
        · simp at h
        · simp only at h
          simp at h
          subst h
          have hrec : (readLines lib maxL ls (i + 1)).1 = .ok rest := by rw [hr]
          rcases oe with _ | en
          · exact ih hrec e he
          · rcases List.mem_cons.mp he with rfl | he'
            · exact parse_entry_isSome_ts hp
            · exact ih hrec e he'

/-- Every entry `read_log_file` returns carries a parsed timestamp. -/
theorem read_log_file_ts {lib : PyLib} {a : Analyzer} {fs : FS}
    {filename : String} {maxL : Option Int} {es : List Entry}
    (h : (read_log_file lib a fs filename maxL).result = .ok es) :
    ∀ e ∈ es, e.parsedTimestamp.isSome := by
  have resolved : ∀ (a' : Analyzer) (refreshes : Nat),
      (readResolved lib a' fs filename maxL refreshes).result = .ok es →
      ∀ e ∈ es, e.parsedTimestamp.isSome := by
    intro a' refreshes h'
    unfold readResolved at h'
    rcases hf : fs.files.find? (fun f => f.name = filename) with _ | fe
    · simp only [hf] at h'; simp at h'
    · simp only [hf] at h'
      rcases hr : readLines lib maxL fe.lines 0 with ⟨r, n⟩
      simp only [hr] at h'
      rcases r with er | res
      · simp at h'
      · simp at h'
        subst h'
        exact readLines_ts (by rw [hr])
  unfold read_log_file at h
  rcases h1 : a.cache.find? (fun p => p.1 = filename) with _ | v
  · simp only [h1] at h
    rcases h2 : (a.refreshed fs).cache.find? (fun p => p.1 = filename) with _ | v'
    · simp only [h2] at h; simp at h
    · simp only [h2] at h; exact resolved _ _ h
  · simp only [h1] at h; exact resolved _ _ h

/-- Every entry the multi-file collection loop returns carries a parsed
timestamp. -/
theorem collectEntries_ts {lib : PyLib} {fs : FS} :
    ∀ {names : List String} {a : Analyzer} {e : Entry},
      e ∈ (collectEntries lib a fs names).1 → e.parsedTimestamp.isSome := by
  intro names
  induction names with
  | nil => intro a e he; simp [collectEntries] at he
  | cons f rest ih =>
    intro a e he
    unfold collectEntries at he
    rcases hr : (read_log_file lib a fs f none).result with er | es
    · simp only [hr] at he
      exact ih he
    · simp only [hr] at he
      rcases hrec : collectEntries lib (read_log_file lib a fs f none).analyzer fs rest
        with ⟨others, a2⟩
      simp only [hrec] at he
      simp only [List.mem_append] at he
      rcases he with he | he
      · exact @read_log_file_ts lib _ fs f none es (by rw [hr]) e he
      · have := ih (a := (read_log_file lib a fs f none).analyzer) (e := e)
        rw [hrec] at this
        exact this he

/-- With a positive cap, the read loop started at line index `i` examines
at most `max_lines - i` further lines. -/
theorem readLines_examined_le {lib : PyLib} {m : Int} (hm : 0 < m) :
    ∀ (lines : List String) (i : Int),
      (readLines lib (some m) lines i).2 ≤ (m - i).toNat := by
  intro lines
  induction lines with
  | nil => intro i; simp [readLines]
  | cons l ls ih =>
    intro i
    unfold readLines
    by_cases hc : truthyInt (some m) = true ∧ i ≥ (some m : Option Int).getD 0
    · rw [if_pos hc]; simp
    · rw [if_neg hc]
      have hi : i < m := by
        rcases not_and_or.mp hc with hc | hc
        · exact absurd (by simpa [truthyInt] using (by omega : m ≠ 0)) hc
        · simpa using lt_of_not_ge hc
      rcases hp : parse_log_entry lib l with er | oe
      · simp only
        omega
      · simp only
        rcases hr : readLines lib (some m) ls (i + 1) with ⟨r, n⟩
        have hn : n ≤ (m - (i + 1)).toNat := by
          have := ih (i + 1); rw [hr] at this; exact this
        rcases r with er | rest <;> simp only <;> omega

/-- C4 (amended): with a positive `max_lines`, `read_log_file` examines at
most `max_lines` raw lines (parsed and skipped lines both count).  The
amendment: `max_lines = 0` is falsy in Python, so `if max_lines and ...`
never breaks and the whole file is examined; a negative `max_lines` breaks
before the first line. -/
theorem read_log_file_max_lines_bound (lib : PyLib) (a : Analyzer) (fs : FS)
    (name : String) {m : Int} (hm : 0 < m) :
    (read_log_file lib a fs name (some m)).examined ≤ m.toNat := by
  have hres : ∀ (a' : Analyzer) (k : Nat),
      (readResolved lib a' fs name (some m) k).examined ≤ m.toNat := by
    intro a' k
    unfold readResolved
    rcases hf : fs.files.find? (fun f => f.name = name) with _ | fe
    · simp [hf]
    · simp only [hf]
      rcases hr : readLines lib (some m) fe.lines 0 with ⟨r, n⟩
      have hn : n ≤ m.toNat := by
        have := @readLines_examined_le lib m hm fe.lines 0
        rw [hr] at this; simpa using this
      rcases r with er | res <;> simp only [hr] <;> simpa using hn
  unfold read_log_file
  rcases h1 : a.cache.find? (fun p => p.1 = name) with _ | v
  · simp only [h1]
    rcases h2 : (a.refreshed fs).cache.find? (fun p => p.1 = name) with _ | v'
    · simp [h2]
    · simp only [h2]; exact hres _ _
  · simp only [h1]; exact hres _ _

/-- C4 (counterexample): the claim says `read(name, maxLines)` examines at
most `maxLines` raw lines for every given `maxLines`.  With the given
value `max_lines = 0` the guard `if max_lines and i >= max_lines` is never
taken (0 is falsy), so both lines of the two-line file are examined,
exceeding the cap of 0. -/
theorem read_log_file_max_lines_zero_uncapped :
    (read_log_file lib1 an1 fs1 "app.log" (some 0)).examined = 2 ∧
    ¬ ((read_log_file lib1 an1 fs1 "app.log" (some 0)).examined ≤ 0) := by
  constructor
  · rfl
  · intro hle
    have h2 : (read_log_file lib1 an1 fs1 "app.log" (some 0)).examined = 2 := rfl
    omega

/-- C4 (witness): the bound theorem applied at `max_lines = 1` on the
two-line file. -/
theorem read_log_file_max_lines_bound_witness :
    (0 : Int) < 1 ∧
    (read_log_file lib1 an1 fs1 "app.log" (some 1)).examined ≤ (1 : Int).toNat :=
  ⟨by decide, read_log_file_max_lines_bound lib1 an1 fs1 "app.log" (by decide)⟩

/-- Helper `readResolved` reports the refresh count it was handed. -/
theorem readResolved_refreshes (lib : PyLib) (a : Analyzer) (fs : FS)
    (name : String) (maxL : Option Int) (k : Nat) :
    (readResolved lib a fs name maxL k).refreshes = k := by
  unfold readResolved
  rcases hf : fs.files.find? (fun f => f.name = name) with _ | fe
  · simp [hf]
  · simp only [hf]
    rcases hr : readLines lib maxL fe.lines 0 with ⟨r, n⟩
    rcases r with er | res <;> simp [hr]

/-- C8: a name absent from the catalog triggers exactly one refresh and
one retry; if it is still missing after the refresh, `read_log_file`
raises `FileNotFoundError` for that name directly to its caller. -/
theorem read_log_file_missing_refreshes_once (lib : PyLib) (a : Analyzer)
    (fs : FS) (name : String) (maxL : Option Int)
    (hmiss : a.cache.find? (fun p => p.1 = name) = none) :
    (read_log_file lib a fs name maxL).refreshes = 1 ∧
    ((refreshCache a.logDirectory fs).find? (fun p => p.1 = name) = none →
      (read_log_file lib a fs name maxL).result = .error (.fileNotFound name)) := by
  unfold read_log_file
  simp only [hmiss]
  rcases h2 : (a.refreshed fs).cache.find? (fun p => p.1 = name) with _ | v
  · simp only [h2]
    exact ⟨trivial, fun _ => trivial⟩
  · simp only [h2]
    refine ⟨readResolved_refreshes lib _ fs name maxL 1, fun hnone => ?_⟩
    have h2' : (refreshCache a.logDirectory fs).find? (fun p => p.1 = name) = some v := h2
    rw [hnone] at h2'
    cases h2'

/-- C8 (witness): reading `missing.log` against an empty catalog and an
empty directory refreshes once and raises `FileNotFoundError`. -/
theorem read_log_file_missing_witness :
    anEmpty.cache.find? (fun p => p.1 = "missing.log") = none ∧
    ((read_log_file lib1 anEmpty fsEmpty "missing.log" none).refreshes = 1 ∧
     ((refreshCache anEmpty.logDirectory fsEmpty).find? (fun p => p.1 = "missing.log") = none →
       (read_log_file lib1 anEmpty fsEmpty "missing.log" none).result =
         .error (.fileNotFound "missing.log"))) :=
  ⟨rfl, read_log_file_missing_refreshes_once lib1 anEmpty fsEmpty "missing.log" none rfl⟩

/-- Totality of the lexicographic comparison on character lists. -/
theorem lexLe_total : ∀ (a b : List Char), lexLe a b = true ∨ lexLe b a = true
  | [], _ => Or.inl rfl
  | _ :: _, [] => Or.inr rfl
  | a :: as, b :: bs => by
    rcases lt_trichotomy a b with h | h | h
    · left; simp [lexLe, h]
    · subst h
      rcases lexLe_total as bs with ih | ih
      · left; simp [lexLe, lt_irrefl, ih]
      · right; simp [lexLe, lt_irrefl, ih]
    · right; simp [lexLe, h]

/-- Transitivity of the lexicographic comparison on character lists. -/
theorem lexLe_trans : ∀ (a b c : List Char),
    lexLe a b = true → lexLe b c = true → lexLe a c = true
  | [], _, _ => fun _ _ => rfl
  | _ :: _, [], _ => fun h _ => by simp [lexLe] at h
  | _ :: _, _ :: _, [] => fun _ h => by simp [lexLe] at h
  | a :: as, b :: bs, c :: cs => fun h1 h2 => by
    rcases lt_trichotomy a b with hab | hab | hab
    · rcases lt_trichotomy b c with hbc | hbc | hbc
      · simp [lexLe, lt_trans hab hbc]
      · subst hbc; simp [lexLe, hab]
      · simp [lexLe, hbc, asymm hbc] at h2
    · subst hab
      rcases lt_trichotomy a c with hac | hac | hac
      · simp [lexLe, hac]
      · subst hac
        simp only [lexLe, lt_irrefl, if_false] at h1 h2 ⊢
        exact lexLe_trans as bs cs h1 h2
      · simp [lexLe, hac, asymm hac] at h2
    · simp [lexLe, hab, asymm hab] at h1

/-- Totality of the string comparison. -/
theorem strLe_total (s t : String) : strLe s t = true ∨ strLe t s = true :=
  lexLe_total s.data t.data

/-- Transitivity of the string comparison. -/
theorem strLe_trans {s t u : String} (h1 : strLe s t = true)
    (h2 : strLe t u = true) : strLe s u = true :=
  lexLe_trans s.data t.data u.data h1 h2

/-- Projecting the values out of the name-keyed dict built from a
descriptor list gives back the descriptor list. -/
theorem map_snd_pair (l : List FileInfo) :
    l.map (Prod.snd ∘ fun f => (f.name, f)) = l := by
  induction l with
  | nil => rfl
  | cons x xs ih => simp only [List.map_cons, ih, Function.comp_apply]

/-- C7: `get_log_files` refreshes the catalog first; the returned list is
exactly the on-disk files matching the `*.log*` pattern, each described
with its name, path, size and modification time, sorted by the serialized
modification time descending (newest first); a missing directory yields an
empty catalog and list, not an error. -/
theorem get_log_files_spec (a : Analyzer) (fs : FS) :
    ((get_log_files a fs).1).Perm
      ((if fs.dirExists then fs.files.filter (fun f => matchesLogGlob f.name) else []).map
        (mkFileInfo a.logDirectory)) ∧
    ((get_log_files a fs).1).Pairwise (fun x y => strLe y.modified x.modified = true) ∧
    (get_log_files a fs).2 = a.refreshed fs ∧
    (fs.dirExists = false → (get_log_files a fs).1 = []) := by
  cases hd : fs.dirExists
  · refine ⟨?_, ?_, rfl, fun _ => ?_⟩ <;>
      simp [get_log_files, Analyzer.refreshed, refreshCache, hd]
  · have hmap : (get_log_files a fs).1 =
        stableSort (fun u v : FileInfo => strLe v.modified u.modified)
          ((fs.files.filter (fun f => matchesLogGlob f.name)).map (mkFileInfo a.logDirectory)) := by
      simp [get_log_files, Analyzer.refreshed, refreshCache, hd, List.map_map, map_snd_pair]
    refine ⟨?_, ?_, rfl, fun hc => by simp at hc⟩
    · rw [hmap]
      simpa using stableSort_perm (fun u v : FileInfo => strLe v.modified u.modified)
        ((fs.files.filter (fun f => matchesLogGlob f.name)).map (mkFileInfo a.logDirectory))
    · rw [hmap]
      exact @stableSort_pairwise _ (fun u v : FileInfo => strLe v.modified u.modified)
        (fun x y z hxy hyz => strLe_trans hyz hxy)
        (fun x y => strLe_total y.modified x.modified) _

/-- A malformed `start_time` makes `passStart` vacuous (the per-entry
`datetime.fromisoformat(start_time)` raises `ValueError`, which the loop
catches with `pass`). -/
theorem entryPass_start_ignored {lib : PyLib} {q : QueryArgs} {s : String}
    (hs : q.start_time = some s) (hbad : lib.fromiso s = none) (e : Entry) :
    entryPass lib q e = entryPass lib {q with start_time := none} e := by
  have hps : passStart lib q e = true := by
    unfold passStart
    rw [hs]
    by_cases he : s = ""
    · subst he; simp [truthyStr]
    · simp [truthyStr, he, hbad]
  have hps' : passStart lib {q with start_time := none} e = true := by
    simp [passStart, truthyStr]
  unfold entryPass
  rw [hps, hps']
  rfl

/-- A malformed `end_time` makes `passEnd` vacuous, symmetrically. -/
theorem entryPass_end_ignored {lib : PyLib} {q : QueryArgs} {s : String}
    (hs : q.end_time = some s) (hbad : lib.fromiso s = none) (e : Entry) :
    entryPass lib q e = entryPass lib {q with end_time := none} e := by
  have hps : passEnd lib q e = true := by
    unfold passEnd
    rw [hs]
    by_cases he : s = ""
    · subst he; simp [truthyStr]
    · simp [truthyStr, he, hbad]
  have hps' : passEnd lib {q with end_time := none} e = true := by
    simp [passEnd, truthyStr]
  unfold entryPass
  rw [hps, hps']
  rfl

/-- Pointwise-equal per-entry filters give equal filter loops. -/
theorem filterEntries_congr {lib : PyLib} {q q' : QueryArgs}
    (h : ∀ e, entryPass lib q e = entryPass lib q' e) :
    ∀ l, filterEntries lib q l = filterEntries lib q' l
  | [] => rfl
  | e :: es => by
    unfold filterEntries
    rw [h e, filterEntries_congr h es]

/-- C9: a malformed (non-ISO-8601) `start_time` or `end_time` never makes
`query_logs` raise and is simply not applied: the query behaves exactly as
the same query without that bound, so every other supplied predicate still
takes effect. -/
theorem query_logs_malformed_time_ignored (lib : PyLib) (a : Analyzer) (fs : FS)
    (q : QueryArgs) :
    (∀ s, q.start_time = some s → lib.fromiso s = none →
      query_logs lib a fs q = query_logs lib a fs {q with start_time := none}) ∧
    (∀ s, q.end_time = some s → lib.fromiso s = none →
      query_logs lib a fs q = query_logs lib a fs {q with end_time := none}) := by
  constructor
  · intro s hs hbad
    have hfe : filterEntries lib q = filterEntries lib {q with start_time := none} :=
      funext (filterEntries_congr (entryPass_start_ignored hs hbad))
    unfold query_logs
    rw [hfe]
  · intro s hs hbad
    have hfe : filterEntries lib q = filterEntries lib {q with end_time := none} :=
      funext (filterEntries_congr (entryPass_end_ignored hs hbad))
    unfold query_logs
    rw [hfe]

/-- A query whose `start_time` is the non-ISO string `"BAD"`. -/
def qBad : QueryArgs := ⟨none, none, none, none, none, some "BAD", none, none⟩

/-- C9 (witness): on the concrete corpus, the query with the malformed
bound `"BAD"` equals the query without it. -/
theorem query_logs_malformed_time_witness :
    qBad.start_time = some "BAD" ∧ lib1.fromiso "BAD" = none ∧
    query_logs lib1 an1 fs1 qBad = query_logs lib1 an1 fs1 {qBad with start_time := none} :=
  ⟨rfl, rfl, (query_logs_malformed_time_ignored lib1 an1 fs1 qBad).1 "BAD" rfl rfl⟩

/-- A Python slice `l[:n]` is a sublist of `l`. -/
theorem pySliceTo_sublist (l : List α) (n : Int) : (pySliceTo l n).Sublist l := by
  unfold pySliceTo
  split <;> exact List.take_sublist _ _

/-- A Python slice `l[:n]` with `n ≥ 0` has at most `n` elements. -/
theorem pySliceTo_length_le (l : List α) {n : Int} (hn : 0 ≤ n) :
    (pySliceTo l n).length ≤ n.toNat := by
  unfold pySliceTo
  rw [if_pos hn]
  simp [List.length_take]

/-- C5 (amended): a successful `query_logs` result is ordered newest-first
by the parsed timestamp, contains at most `limit` entries whenever the
supplied `limit` is non-negative, and `limit` defaults to 100 when not
supplied.  The amendment: a negative `limit` is applied with Python slice
semantics (`l[:limit]` drops the last `-limit` elements), so the result
can hold more than `limit` entries. -/
theorem query_logs_order_and_limit (lib : PyLib) (a : Analyzer) (fs : FS)
    (q : QueryArgs) (res : List Entry) (a2 : Analyzer)
    (h : query_logs lib a fs q = (.ok res, a2)) :
    res.Pairwise (fun x y => ∀ tx ty, x.parsedTimestamp = some tx →
      y.parsedTimestamp = some ty → ty ≤ tx) ∧
    (∀ n : Int, q.limit = some n → 0 ≤ n → res.length ≤ n.toNat) ∧
    (q.limit = none → res.length ≤ 100) ∧
    query_logs lib a fs {q with limit := some 100} =
      query_logs lib a fs {q with limit := none} := by
  unfold query_logs at h
  rcases hcol : collectEntries lib a fs (selectedFiles a q.files) with ⟨allE, a3⟩
  simp only [hcol] at h
  rcases hfil : filterEntries lib q allE with er | filtered
  · simp only [hfil] at h
    simp at h
  · simp only [hfil] at h
    simp only [Prod.mk.injEq, Except.ok.injEq] at h
    rcases h with ⟨hres, ha⟩
    have hsorted :
        (stableSort (fun x y => decide (sortKey lib y ≤ sortKey lib x)) filtered).Pairwise
          (fun x y => decide (sortKey lib y ≤ sortKey lib x) = true) :=
      stableSort_pairwise
        (fun x y z hxy hyz => by
          simp only [decide_eq_true_eq] at *
          exact le_trans hyz hxy)
        (fun x y => by
          simp only [decide_eq_true_eq]
          exact Int.le_total (sortKey lib y) (sortKey lib x)) _
    refine ⟨?_, ?_, ?_, ?_⟩
    · have hsub : res.Sublist
          (stableSort (fun x y => decide (sortKey lib y ≤ sortKey lib x)) filtered) := by
        rw [← hres]
        exact pySliceTo_sublist _ _
      refine (hsorted.sublist hsub).imp ?_
      intro x y hxy tx ty hx hy
      simp only [decide_eq_true_eq, sortKey, hx, hy, Option.getD_some] at hxy
      exact hxy
    · intro n hn hn0
      rw [← hres, hn]
      exact pySliceTo_length_le _ hn0
    · intro hn
      rw [← hres, hn]
      exact pySliceTo_length_le _ (by decide)
    · have hfe : filterEntries lib {q with limit := some 100} =
          filterEntries lib {q with limit := none} :=
        funext (filterEntries_congr (fun e => rfl))
      unfold query_logs
      rw [hfe]
      rfl

/-- A query with a negative limit and no filters. -/
def qNeg : QueryArgs := ⟨none, none, none, none, none, none, none, some (-1)⟩

/-- A query with every argument left at its default. -/
def qNone : QueryArgs := ⟨none, none, none, none, none, none, none, none⟩

/-- C5 (counterexample): with the caller-supplied `limit = -1` on a
two-entry corpus, `query_logs` returns one entry, so the result is not
"truncated to at most `limit` entries": 1 ≰ -1.  (Python `l[:-1]` drops
only the last element.) -/
theorem query_logs_negative_limit_cex :
    (query_logs lib1 an1 fs1 qNeg).1 = .ok [entry1] ∧
    qNeg.limit = some (-1) ∧ ¬ ((([entry1] : List Entry).length : Int) ≤ -1) := by
  refine ⟨rfl, rfl, ?_⟩
  simp

/-- C5 (witness): the order/limit theorem applied to the default query on
the two-entry corpus. -/
theorem query_logs_order_and_limit_witness :
    query_logs lib1 an1 fs1 qNone = (.ok [entry1, entry2], an1) ∧
    ([entry1, entry2] : List Entry).Pairwise (fun x y => ∀ tx ty,
      x.parsedTimestamp = some tx → y.parsedTimestamp = some ty → ty ≤ tx) ∧
    (∀ n : Int, qNone.limit = some n → 0 ≤ n →
      ([entry1, entry2] : List Entry).length ≤ n.toNat) ∧
    (qNone.limit = none → ([entry1, entry2] : List Entry).length ≤ 100) ∧
    query_logs lib1 an1 fs1 {qNone with limit := some 100} =
      query_logs lib1 an1 fs1 {qNone with limit := none} :=
  ⟨rfl, query_logs_order_and_limit lib1 an1 fs1 qNone [entry1, entry2] an1 rfl⟩

/-- What the level filter accepts (case-insensitive exact match), when
supplied. -/
def satLevel (q : QueryArgs) (e : Entry) : Prop :=
  truthyStr q.level = true →
    ∃ s, entryGet e "level" (.str "") = .str s ∧ pyUpper s = pyUpper (q.level.getD "")

/-- What the module filter accepts (exact match), when supplied. -/
def satModule (q : QueryArgs) (e : Entry) : Prop :=
  truthyStr q.module = true →
    jsonEqStr (entryGet e "module" (.str "")) (q.module.getD "") = true

/-- What the function filter accepts (exact match), when supplied. -/
def satFunction (q : QueryArgs) (e : Entry) : Prop :=
  truthyStr q.function = true →
    jsonEqStr (entryGet e "function" (.str "")) (q.function.getD "") = true

/-- What the message filter accepts (case-insensitive containment), when
supplied. -/
def satMessage (q : QueryArgs) (e : Entry) : Prop :=
  truthyStr q.message_contains = true →
    ∃ s, entryGet e "message" (.str "") = .str s ∧
      strContainsSub (pyLower s) (pyLower (q.message_contains.getD "")) = true

/-- What the start-time filter accepts: an inclusive lower bound on the
parsed timestamp, binding only when the bound parses and the entry has a
timestamp. -/
def satStart (lib : PyLib) (q : QueryArgs) (e : Entry) : Prop :=
  ∀ s sd t, q.start_time = some s → truthyStr q.start_time = true →
    lib.fromiso s = some sd → e.parsedTimestamp = some t → sd ≤ t

/-- What the end-time filter accepts, symmetrically. -/
def satEnd (lib : PyLib) (q : QueryArgs) (e : Entry) : Prop :=
  ∀ s ed t, q.end_time = some s → truthyStr q.end_time = true →
    lib.fromiso s = some ed → e.parsedTimestamp = some t → t ≤ ed

/-- The six removable query predicates. -/
inductive Pred where
  | level
  | module
  | function
  | message
  | start_time
  | end_time

/-- Remove one predicate from a query. -/
def dropPred (q : QueryArgs) : Pred → QueryArgs
  | .level => {q with level := none}
  | .module => {q with module := none}
  | .function => {q with function := none}
  | .message => {q with message_contains := none}
  | .start_time => {q with start_time := none}
  | .end_time => {q with end_time := none}

/-- An entry that survived the whole filter chain passed every filter. -/
theorem entryPass_ok_true {lib : PyLib} {q : QueryArgs} {e : Entry}
    (h : entryPass lib q e = .ok true) :
    passLevel q e = .ok true ∧ passModule q e = true ∧ passFunction q e = true ∧
    passMessage q e = .ok true ∧ passStart lib q e = true ∧ passEnd lib q e = true := by
  unfold entryPass at h
  rcases hl : passLevel q e with er | bl <;> simp only [hl] at h
  · simp at h
  · rcases bl with _ | _
    · simp at h
    · rcases hm : passModule q e with _ | _ <;> simp only [hm] at h
      · simp at h
      · rcases hf : passFunction q e with _ | _ <;> simp only [hf] at h
        · simp at h
        · rcases hmsg : passMessage q e with er | bm <;> simp only [hmsg] at h
          · simp at h
          · rcases bm with _ | _
            · simp at h
            · rcases hst : passStart lib q e with _ | _ <;> simp only [hst] at h
              · simp at h
              · rcases hen : passEnd lib q e with _ | _ <;> simp only [hen] at h
                · simp at h
                · exact ⟨rfl, rfl, rfl, rfl, rfl, rfl⟩

/-- Filter `passLevel` succeeding with `true` means the level predicate holds. -/
theorem passLevel_sat {q : QueryArgs} {e : Entry}
    (h : passLevel q e = .ok true) : satLevel q e := by
  intro ht
  unfold passLevel at h
  rw [if_pos ht] at h
  rcases hg : entryGet e "level" (.str "") with _ | _ | _ | s | _ | _ <;>
    rw [hg] at h <;> simp at h
  exact ⟨s, rfl, h⟩

/-- Filter `passMessage` succeeding with `true` means the message predicate holds. -/
theorem passMessage_sat {q : QueryArgs} {e : Entry}
    (h : passMessage q e = .ok true) : satMessage q e := by
  intro ht
  unfold passMessage at h
  rw [if_pos ht] at h
  rcases hg : entryGet e "message" (.str "") with _ | _ | _ | s | _ | _ <;>
    rw [hg] at h <;> simp at h
  exact ⟨s, rfl, h⟩

/-- Filter `passStart` holding means the start-time predicate holds. -/
theorem passStart_sat {lib : PyLib} {q : QueryArgs} {e : Entry}
    (h : passStart lib q e = true) : satStart lib q e := by
  intro s sd t hs ht hiso hts
  unfold passStart at h
  rw [if_pos ht, hs] at h
  simp only [Option.getD_some] at h
  rw [hiso, hts] at h
  simpa using h

/-- Filter `passEnd` holding means the end-time predicate holds. -/
theorem passEnd_sat {lib : PyLib} {q : QueryArgs} {e : Entry}
    (h : passEnd lib q e = true) : satEnd lib q e := by
  intro s ed t hs ht hiso hts
  unfold passEnd at h
  rw [if_pos ht, hs] at h
  simp only [Option.getD_some] at h
  rw [hiso, hts] at h
  simpa using h

/-- An entry that survived the whole filter chain satisfies every supplied
predicate simultaneously. -/
theorem entryPass_sat {lib : PyLib} {q : QueryArgs} {e : Entry}
    (h : entryPass lib q e = .ok true) :
    satLevel q e ∧ satModule q e ∧ satFunction q e ∧ satMessage q e ∧
    satStart lib q e ∧ satEnd lib q e := by
  obtain ⟨hl, hm, hf, hmsg, hst, hen⟩ := entryPass_ok_true h
  refine ⟨passLevel_sat hl, ?_, ?_, passMessage_sat hmsg, passStart_sat hst, passEnd_sat hen⟩
  · intro ht
    unfold passModule at hm
    simpa [ht] using hm
  · intro ht
    unfold passFunction at hf
    simpa [ht] using hf

/-- Every member of a successful filter pass passed the filter chain. -/
theorem mem_filterEntries {lib : PyLib} {q : QueryArgs} :
    ∀ {l fl : List Entry}, filterEntries lib q l = .ok fl →
      ∀ e ∈ fl, entryPass lib q e = .ok true := by
  intro l
  induction l with
  | nil =>
    intro fl h e he
    simp only [filterEntries] at h
    simp at h; subst h; simp at he
  | cons x xs ih =>
    intro fl h e he
    unfold filterEntries at h
    rcases hp : entryPass lib q x with er | b <;> simp only [hp] at h
    · simp at h
    · rcases hr : filterEntries lib q xs with er | rest <;> simp only [hr] at h
      · simp at h
      · simp at h
        subst h
        rcases b with _ | _
        · simp only [if_false, Bool.false_eq_true] at he
          exact ih hr e he
        · simp only [if_true] at he
          rcases List.mem_cons.mp he with rfl | he'
          · exact hp
          · exact ih hr e he'

/-- Dropping one predicate cannot reject an entry that passed the full
chain. -/
theorem entryPass_dropPred {lib : PyLib} {q : QueryArgs} {e : Entry} (p : Pred)
    (h : entryPass lib q e = .ok true) :
    entryPass lib (dropPred q p) e = .ok true := by
  obtain ⟨hl, hm, hf, hmsg, hst, hen⟩ := entryPass_ok_true h
  cases p
  case level =>
    have h1 : passLevel (dropPred q .level) e = .ok true := by
      simp [passLevel, truthyStr, dropPred]
    have h2 : passModule (dropPred q .level) e = true := hm
    have h3 : passFunction (dropPred q .level) e = true := hf
    have h4 : passMessage (dropPred q .level) e = .ok true := hmsg
    have h5 : passStart lib (dropPred q .level) e = true := hst
    have h6 : passEnd lib (dropPred q .level) e = true := hen
    simp [entryPass, h1, h2, h3, h4, h5, h6]
  case module =>
    have h1 : passLevel (dropPred q .module) e = .ok true := hl
    have h2 : passModule (dropPred q .module) e = true := by
      simp [passModule, truthyStr, dropPred]
    have h3 : passFunction (dropPred q .module) e = true := hf
    have h4 : passMessage (dropPred q .module) e = .ok true := hmsg
    have h5 : passStart lib (dropPred q .module) e = true := hst
    have h6 : passEnd lib (dropPred q .module) e = true := hen
    simp [entryPass, h1, h2, h3, h4, h5, h6]
  case function =>
    have h1 : passLevel (dropPred q .function) e = .ok true := hl
    have h2 : passModule (dropPred q .function) e = true := hm
    have h3 : passFunction (dropPred q .function) e = true := by
      simp [passFunction, truthyStr, dropPred]
    have h4 : passMessage (dropPred q .function) e = .ok true := hmsg
    have h5 : passStart lib (dropPred q .function) e = true := hst
    have h6 : passEnd lib (dropPred q .function) e = true := hen
    simp [entryPass, h1, h2, h3, h4, h5, h6]
  case message =>
    have h1 : passLevel (dropPred q .message) e = .ok true := hl
    have h2 : passModule (dropPred q .message) e = true := hm
    have h3 : passFunction (dropPred q .message) e = true := hf
    have h4 : passMessage (dropPred q .message) e = .ok true := by
      simp [passMessage, truthyStr, dropPred]
    have h5 : passStart lib (dropPred q .message) e = true := hst
    have h6 : passEnd lib (dropPred q .message) e = true := hen
    simp [entryPass, h1, h2, h3, h4, h5, h6]
  case start_time =>
    have h1 : passLevel (dropPred q .start_time) e = .ok true := hl
    have h2 : passModule (dropPred q .start_time) e = true := hm
    have h3 : passFunction (dropPred q .start_time) e = true := hf
    have h4 : passMessage (dropPred q .start_time) e = .ok true := hmsg
    have h5 : passStart lib (dropPred q .start_time) e = true := by
      simp [passStart, truthyStr, dropPred]
    have h6 : passEnd lib (dropPred q .start_time) e = true := hen
    simp [entryPass, h1, h2, h3, h4, h5, h6]
  case end_time =>
    have h1 : passLevel (dropPred q .end_time) e = .ok true := hl
    have h2 : passModule (dropPred q .end_time) e = true := hm
    have h3 : passFunction (dropPred q .end_time) e = true := hf
    have h4 : passMessage (dropPred q .end_time) e = .ok true := hmsg
    have h5 : passStart lib (dropPred q .end_time) e = true := hst
    have h6 : passEnd lib (dropPred q .end_time) e = true := by
      simp [passEnd, truthyStr, dropPred]
    simp [entryPass, h1, h2, h3, h4, h5, h6]

/-- A pointwise-stronger filter yields a sublist of the weaker filter's
pass, on the same input. -/
theorem filterEntries_mono {lib : PyLib} {q q! : QueryArgs}
    (himp : ∀ e, entryPass lib q e = .ok true → entryPass lib q! e = .ok true) :
    ∀ {l fl fl! : List Entry}, filterEntries lib q l = .ok fl →
      filterEntries lib q! l = .ok fl! → fl.Sublist fl! := by
  intro l
  induction l with
  | nil =>
    intro fl fl! h h!
    simp only [filterEntries] at h h!
    simp at h h!; subst h; subst h!
    exact List.Sublist.refl _
  | cons x xs ih =>
    intro fl fl! h h!
    unfold filterEntries at h h!
    rcases hp : entryPass lib q x with er | b <;> simp only [hp] at h
    · simp at h
    · rcases hr : filterEntries lib q xs with er | rest <;> simp only [hr] at h
      · simp at h
      · rcases hp! : entryPass lib q! x with er | b! <;> simp only [hp!] at h!
        · simp at h!
        · rcases hr! : filterEntries lib q! xs with er | rest! <;> simp only [hr!] at h!
          · simp at h!
          · simp at h h!
            subst h; subst h!
            have hsub : rest.Sublist rest! := ih hr hr!
            rcases b with _ | _
            · rcases b! with _ | _
              · simpa using hsub
              · simp only [if_false, if_true, Bool.false_eq_true]
                exact hsub.cons x
            · have hb! : b! = true := by
                have := himp x hp
                rw [hp!] at this
                simpa using this
              subst hb!
              simpa using List.Sublist.cons₂ x hsub

/-- C3 (amended): every entry a successful query returns satisfies every
supplied predicate simultaneously (the filters are conjunctive); and
removing any one predicate can only grow the set of entries that pass the
filter stage.  The amendment: after the newest-first sort and `[:limit]`
truncation that produce the returned list, the grown filter pass need not
retain the original returned entries, so the monotonicity holds for the
pre-truncation filter pass rather than for the truncated result. -/
theorem query_logs_conjunctive_and_monotone (lib : PyLib) (a : Analyzer)
    (fs : FS) (q : QueryArgs) (res : List Entry) (a2 : Analyzer)
    (h : query_logs lib a fs q = (.ok res, a2)) :
    (∀ e ∈ res, satLevel q e ∧ satModule q e ∧ satFunction q e ∧ satMessage q e ∧
      satStart lib q e ∧ satEnd lib q e) ∧
    (∀ (p : Pred) (fl fl! : List Entry),
      filterEntries lib q (collectEntries lib a fs (selectedFiles a q.files)).1 = .ok fl →
      filterEntries lib (dropPred q p)
        (collectEntries lib a fs (selectedFiles a q.files)).1 = .ok fl! →
      fl.Sublist fl!) := by
  constructor
  · intro e he
    unfold query_logs at h
    rcases hcol : collectEntries lib a fs (selectedFiles a q.files) with ⟨allE, a3⟩
    simp only [hcol] at h
    rcases hfil : filterEntries lib q allE with er | filtered <;> simp only [hfil] at h
    · simp at h
    · simp only [Prod.mk.injEq, Except.ok.injEq] at h
      rcases h with ⟨hres, _⟩
      have hsub : res.Sublist
          (stableSort (fun x y => decide (sortKey lib y ≤ sortKey lib x)) filtered) := by
        rw [← hres]
        exact pySliceTo_sublist _ _
      have hmem : e ∈ filtered := (stableSort_perm _ _).mem_iff.mp (hsub.subset he)
      exact entryPass_sat (mem_filterEntries hfil e hmem)
  · intro p fl fl! hq hq!
    exact filterEntries_mono (fun e => entryPass_dropPred p) hq hq!

/-- The query `level="ERROR", limit=1` on the two-entry corpus. -/
def qErr : QueryArgs := ⟨none, some "ERROR", none, none, none, none, none, some 1⟩

/-- The level value of an entry, for separating concrete entries. -/
def levelOf (e : Entry) : String :=
  match entryGet e "level" (.str "") with
  | .str s => s
  | _ => ""

/-- C3 (counterexample): the claim says removing one predicate can only
grow (never shrink) the result set returned by `query`.  On the two-entry
corpus with `level="ERROR"` and `limit=1`, the query returns exactly the
ERROR entry; removing the level predicate makes the newer INFO entry fill
the single `limit` slot, so the previously returned ERROR entry is no
longer in the result — the returned set is not monotone. -/
theorem query_logs_monotonicity_cex :
    (query_logs lib1 an1 fs1 qErr).1 = .ok [entry2] ∧
    (query_logs lib1 an1 fs1 (dropPred qErr .level)).1 = .ok [entry1] ∧
    ¬ (∀ e ∈ ([entry2] : List Entry), e ∈ ([entry1] : List Entry)) := by
  refine ⟨rfl, rfl, ?_⟩
  intro hall
  have h2 := hall entry2 (List.mem_singleton_self _)
  rw [List.mem_singleton] at h2
  exact absurd (congrArg levelOf h2) (by decide)

/-- C3 (witness): the conjunctivity/monotonicity theorem applied to the
default query on the two-entry corpus. -/
theorem query_logs_conjunctive_and_monotone_witness :
    query_logs lib1 an1 fs1 qNone = (.ok [entry1, entry2], an1) ∧
    ((∀ e ∈ ([entry1, entry2] : List Entry), satLevel qNone e ∧ satModule qNone e ∧
      satFunction qNone e ∧ satMessage qNone e ∧ satStart lib1 qNone e ∧ satEnd lib1 qNone e) ∧
    (∀ (p : Pred) (fl fl! : List Entry),
      filterEntries lib1 qNone
        (collectEntries lib1 an1 fs1 (selectedFiles an1 qNone.files)).1 = .ok fl →
      filterEntries lib1 (dropPred qNone p)
        (collectEntries lib1 an1 fs1 (selectedFiles an1 qNone.files)).1 = .ok fl! →
      fl.Sublist fl!)) :=
  ⟨rfl, query_logs_conjunctive_and_monotone lib1 an1 fs1 qNone [entry1, entry2] an1 rfl⟩

/-- Appending an entry to its bucket grows the total bucket count by one. -/
theorem insertGroup_sum (key : Json) (e : Entry) :
    ∀ gs : List (Json × List Entry),
      ((insertGroup key e gs).map (fun p => p.2.length)).sum =
        (gs.map (fun p => p.2.length)).sum + 1
  | [] => by simp [insertGroup]
  | (k, es) :: rest => by
    unfold insertGroup
    by_cases h : scalarEq k key = true
    · rw [if_pos h]
      simp only [List.map_cons, List.sum_cons, List.length_append, List.length_singleton]
      omega
    · rw [if_neg h]
      simp only [List.map_cons, List.sum_cons, insertGroup_sum key e rest]
      omega

/-- The grouping loop adds one to the total bucket count per entry. -/
theorem buildGroupsLoop_sum {lib : PyLib} {group_by : String} :
    ∀ {l : List Entry} {gs gs! : List (Json × List Entry)},
      buildGroupsLoop lib group_by l gs = .ok gs! →
      (gs!.map (fun p => p.2.length)).sum = (gs.map (fun p => p.2.length)).sum + l.length := by
  intro l
  induction l with
  | nil =>
    intro gs gs! h
    simp only [buildGroupsLoop] at h
    simp at h; subst h; simp
  | cons e es ih =>
    intro gs gs! h
    unfold buildGroupsLoop at h
    by_cases hk : hashable (groupKey lib group_by e) = true
    · rw [if_pos hk] at h
      rw [ih h, insertGroup_sum]
      simp; omega
    · rw [if_neg hk] at h; simp at h

/-- Buckets stay nonempty and keep any per-entry property through one
insertion. -/
theorem insertGroup_preserve {Q : Entry → Prop} {key : Json} {e : Entry}
    (hQ : Q e) :
    ∀ {gs : List (Json × List Entry)},
      (∀ p ∈ gs, p.2 ≠ [] ∧ ∀ x ∈ p.2, Q x) →
      ∀ p ∈ insertGroup key e gs, p.2 ≠ [] ∧ ∀ x ∈ p.2, Q x := by
  intro gs
  induction gs with
  | nil =>
    intro _ p hp
    simp only [insertGroup, List.mem_singleton] at hp
    subst hp
    exact ⟨by simp, by simpa using hQ⟩
  | cons g rest ih =>
    intro hgs p hp
    rcases g with ⟨k, es⟩
    unfold insertGroup at hp
    by_cases h : scalarEq k key = true
    · rw [if_pos h] at hp
      rcases List.mem_cons.mp hp with rfl | hp'
      · obtain ⟨hne, hall⟩ := hgs (k, es) (List.mem_cons_self _ _)
        refine ⟨by simp, ?_⟩
        intro x hx
        rcases List.mem_append.mp hx with hx | hx
        · exact hall x hx
        · rw [List.mem_singleton] at hx; subst hx; exact hQ
      · exact hgs p (List.mem_cons_of_mem _ hp')
    · rw [if_neg h] at hp
      rcases List.mem_cons.mp hp with rfl | hp'
      · exact hgs (k, es) (List.mem_cons_self _ _)
      · exact ih (fun p0 hp0 => hgs p0 (List.mem_cons_of_mem _ hp0)) p hp'

/-- Buckets stay nonempty and keep any per-entry property through the
whole grouping loop. -/
theorem buildGroupsLoop_preserve {lib : PyLib} {group_by : String}
    {Q : Entry → Prop} :
    ∀ {l : List Entry} {gs gs! : List (Json × List Entry)},
      (∀ e ∈ l, Q e) →
      (∀ p ∈ gs, p.2 ≠ [] ∧ ∀ x ∈ p.2, Q x) →
      buildGroupsLoop lib group_by l gs = .ok gs! →
      ∀ p ∈ gs!, p.2 ≠ [] ∧ ∀ x ∈ p.2, Q x := by
  intro l
  induction l with
  | nil =>
    intro gs gs! _ hgs h
    simp only [buildGroupsLoop] at h
    simp at h; subst h; exact hgs
  | cons e es ih =>
    intro gs gs! hl hgs h
    unfold buildGroupsLoop at h
    by_cases hk : hashable (groupKey lib group_by e) = true
    · rw [if_pos hk] at h
      exact ih (fun x hx => hl x (List.mem_cons_of_mem _ hx))
        (insertGroup_preserve (hl e (List.mem_cons_self _ _)) hgs) h
    · rw [if_neg hk] at h; simp at h

/-- When every entry has a timestamp, the sentinel-defaulted projection is
just the timestamp projection. -/
theorem map_getD_eq_filterMap {es : List Entry} {d : Int}
    (hall : ∀ e ∈ es, e.parsedTimestamp.isSome) :
    es.map (fun e => e.parsedTimestamp.getD d) = es.filterMap Entry.parsedTimestamp := by
  induction es with
  | nil => rfl
  | cons e rest ih =>
    have he := hall e (List.mem_cons_self _ _)
    rcases ht : e.parsedTimestamp with _ | t
    · rw [ht] at he; simp at he
    · simp only [List.map_cons, List.filterMap_cons, ht, Option.getD_some]
      rw [ih (fun x hx => hall x (List.mem_cons_of_mem _ hx))]

/-- For all-timestamped buckets, `first_seen` is the ISO serialization of
the minimum timestamp (the `datetime.max` sentinel is never selected). -/
theorem groupFirstSeen_eq {lib : PyLib} {es : List Entry}
    (hall : ∀ e ∈ es, e.parsedTimestamp.isSome) :
    groupFirstSeen lib es = ((es.filterMap Entry.parsedTimestamp).min?).map lib.iso := by
  unfold groupFirstSeen
  rw [map_getD_eq_filterMap hall]
  rcases hf : es.filterMap Entry.parsedTimestamp with _ | ⟨t, ts⟩
  · rfl
  · simp [List.min?]

/-- For all-timestamped buckets, `last_seen` is the ISO serialization of
the maximum timestamp (the `datetime.min` sentinel is never selected). -/
theorem groupLastSeen_eq {lib : PyLib} {es : List Entry}
    (hall : ∀ e ∈ es, e.parsedTimestamp.isSome) :
    groupLastSeen lib es = ((es.filterMap Entry.parsedTimestamp).max?).map lib.iso := by
  unfold groupLastSeen
  rw [map_getD_eq_filterMap hall]
  rcases hf : es.filterMap Entry.parsedTimestamp with _ | ⟨t, ts⟩
  · rfl
  · simp [List.max?]

/-- C2: a successful aggregation's `groups` mapping is exactly the
per-bucket statistics of the buckets the grouping loop built, and in each
bucket `first_seen` and `last_seen` are the ISO-serialized minimum and
maximum `parsedTimestamp` among that bucket's own entries; a bucket whose
entries all lacked a `parsedTimestamp` would report both as null.  (The
parser attaches a timestamp to every entry it emits, so every bucket is
nonempty with all timestamps present, and the all-absent clause is
vacuous.) -/
theorem aggregate_first_last_seen (lib : PyLib) (a : Analyzer) (fs : FS)
    (files : Option (List String)) (group_by : String) (r : AggResult)
    (a2 : Analyzer) (h : aggregate_logs lib a fs files group_by = (.ok r, a2)) :
    ∃ gs : List (Json × List Entry),
      buildGroups lib group_by
        (collectEntries lib a fs (selectedFiles a files)).1 = .ok gs ∧
      r.groups = gs.map (fun p => (p.1, groupStat lib r.total_entries p.2)) ∧
      ∀ p ∈ gs, p.2 ≠ [] ∧
        (groupStat lib r.total_entries p.2).count = p.2.length ∧
        (groupStat lib r.total_entries p.2).first_seen =
          ((p.2.filterMap Entry.parsedTimestamp).min?).map lib.iso ∧
        (groupStat lib r.total_entries p.2).last_seen =
          ((p.2.filterMap Entry.parsedTimestamp).max?).map lib.iso ∧
        ((∀ e ∈ p.2, e.parsedTimestamp = none) →
          (groupStat lib r.total_entries p.2).first_seen = none ∧
          (groupStat lib r.total_entries p.2).last_seen = none) := by
  unfold aggregate_logs at h
  rcases hcol : collectEntries lib a fs (selectedFiles a files) with ⟨allE, a3⟩
  simp only [hcol] at h
  rcases hbg : buildGroups lib group_by allE with er | gs <;> simp only [hbg] at h
  · simp at h
  · simp only [Prod.mk.injEq, Except.ok.injEq] at h
    rcases h with ⟨hr, _⟩
    have htot : r.total_entries = allE.length := by rw [← hr]
    refine ⟨gs, ?_, ?_, ?_⟩
    · rfl
    · rw [← hr]
    · intro p hp
      have hallE : ∀ e ∈ allE, e.parsedTimestamp.isSome := by
        intro e he
        have := @collectEntries_ts lib fs (selectedFiles a files) a e
        rw [hcol] at this
        exact this he
      have hQ : ∀ pp ∈ gs, pp.2 ≠ [] ∧ ∀ x ∈ pp.2, x.parsedTimestamp.isSome :=
        buildGroupsLoop_preserve hallE (by simp) hbg
      obtain ⟨hne, hall⟩ := hQ p hp
      rw [htot]
      refine ⟨hne, rfl, ?_, ?_, ?_⟩
      · exact groupFirstSeen_eq hall
      · exact groupLastSeen_eq hall
      · intro hnone
        exfalso
        rcases hx : p.2 with _ | ⟨e0, es0⟩
        · exact hne hx
        · have h1 := hall e0 (by rw [hx]; exact List.mem_cons_self _ _)
          have h2 := hnone e0 (by rw [hx]; exact List.mem_cons_self _ _)
          rw [h2] at h1
          simp at h1

/-- The aggregation result of grouping the two-entry corpus by level. -/
def aggR : AggResult :=
  match (aggregate_logs lib1 an1 fs1 none "level").1 with
  | .ok r => r
  | .error _ => ⟨"", 0, []⟩

/-- C2 (witness): the first/last-seen theorem applied to the level
aggregation of the two-entry corpus. -/
theorem aggregate_first_last_seen_witness :
    aggregate_logs lib1 an1 fs1 none "level" = (.ok aggR, an1) ∧
    (∃ gs : List (Json × List Entry),
      buildGroups lib1 "level"
        (collectEntries lib1 an1 fs1 (selectedFiles an1 none)).1 = .ok gs ∧
      aggR.groups = gs.map (fun p => (p.1, groupStat lib1 aggR.total_entries p.2)) ∧
      ∀ p ∈ gs, p.2 ≠ [] ∧
        (groupStat lib1 aggR.total_entries p.2).count = p.2.length ∧
        (groupStat lib1 aggR.total_entries p.2).first_seen =
          ((p.2.filterMap Entry.parsedTimestamp).min?).map lib1.iso ∧
        (groupStat lib1 aggR.total_entries p.2).last_seen =
          ((p.2.filterMap Entry.parsedTimestamp).max?).map lib1.iso ∧
        ((∀ e ∈ p.2, e.parsedTimestamp = none) →
          (groupStat lib1 aggR.total_entries p.2).first_seen = none ∧
          (groupStat lib1 aggR.total_entries p.2).last_seen = none)) :=
  ⟨rfl, aggregate_first_last_seen lib1 an1 fs1 none "level" aggR an1 rfl⟩

/-- Rounding to 2 decimal places moves a rational by at most 1/200. -/
theorem round2_sub_abs (x : ℚ) : |round2 x - x| ≤ 1 / 200 := by
  have h := abs_sub_round (x * 100)
  have h2 : |x * 100 - ((round (x * 100) : ℤ) : ℚ)| / 100 ≤ (1 / 2) / 100 :=
    (div_le_div_right (by norm_num)).mpr h
  have heq : round2 x - x = -((x * 100 - ((round (x * 100) : ℤ) : ℚ)) / 100) := by
    unfold round2; ring
  rw [heq, abs_neg, abs_div, show |(100 : ℚ)| = 100 from by norm_num]
  linarith

/-- Triangle bound: two list sums differ by at most the length times a
pointwise bound. -/
theorem sum_abs_sub_le {α : Type _} (f g : α → ℚ) (c : ℚ) :
    ∀ l : List α, (∀ x ∈ l, |f x - g x| ≤ c) →
      |(l.map f).sum - (l.map g).sum| ≤ l.length * c
  | [] => by simp
  | x :: xs => fun hb => by
    simp only [List.map_cons, List.sum_cons, List.length_cons]
    have h1 := hb x (List.mem_cons_self _ _)
    have h2 := sum_abs_sub_le f g c xs (fun y hy => hb y (List.mem_cons_of_mem _ hy))
    have heq : f x + (xs.map f).sum - (g x + (xs.map g).sum) =
        (f x - g x) + ((xs.map f).sum - (xs.map g).sum) := by ring
    rw [heq]
    have h3 := (abs_add (f x - g x) ((xs.map f).sum - (xs.map g).sum)).trans
      (add_le_add h1 h2)
    push_cast
    linarith

/-- Pulling the exact percentage formula out of a sum of casts. -/
theorem sum_cast_div (T : ℚ) : ∀ l : List (Json × GroupStat),
    (l.map (fun p => ((p.2.count : ℚ)) / T * 100)).sum =
      (((l.map (fun p => p.2.count)).sum : ℕ) : ℚ) / T * 100
  | [] => by simp
  | x :: xs => by
    simp only [List.map_cons, List.sum_cons, sum_cast_div T xs]
    push_cast
    ring

/-- C6: in a successful aggregation the group counts sum to
`total_entries`; an empty corpus yields zero groups; each percentage is
the count over the total times 100, rounded to two decimals; and the
percentages sum to 100 up to the accumulated rounding error (at most
1/200 per group). -/
theorem aggregate_counts_and_percentages (lib : PyLib) (a : Analyzer)
    (fs : FS) (files : Option (List String)) (group_by : String)
    (r : AggResult) (a2 : Analyzer)
    (h : aggregate_logs lib a fs files group_by = (.ok r, a2)) :
    ((r.groups.map (fun p => p.2.count)).sum = r.total_entries) ∧
    (r.total_entries = 0 → r.groups = []) ∧
    (r.total_entries ≠ 0 → ∀ p ∈ r.groups,
      p.2.percentage = round2 (((p.2.count : ℚ)) / ((r.total_entries : ℚ)) * 100)) ∧
    (r.total_entries ≠ 0 →
      |(r.groups.map (fun p => p.2.percentage)).sum - 100| ≤ (r.groups.length : ℚ) / 200) := by
  unfold aggregate_logs at h
  rcases hcol : collectEntries lib a fs (selectedFiles a files) with ⟨allE, a3⟩
  simp only [hcol] at h
  rcases hbg : buildGroups lib group_by allE with er | gs <;> simp only [hbg] at h
  · simp at h
  · simp only [Prod.mk.injEq, Except.ok.injEq] at h
    rcases h with ⟨hr, _⟩
    subst hr
    have hcnt : ((gs.map (fun p => (p.1, groupStat lib allE.length p.2))).map
        (fun p => p.2.count)).sum = allE.length := by
      have hs := @buildGroupsLoop_sum lib group_by allE [] gs hbg
      simp only [List.map_nil, List.sum_nil, Nat.zero_add] at hs
      simp only [List.map_map]
      have : ((fun p : Json × GroupStat => p.2.count) ∘
          (fun p : Json × List Entry => (p.1, groupStat lib allE.length p.2))) =
          fun p : Json × List Entry => p.2.length := rfl
      rw [this, hs]
    refine ⟨hcnt, ?_, ?_, ?_⟩
    · intro h0
      simp only at h0
      have : allE = [] := List.length_eq_zero.mp h0
      subst this
      simp only [buildGroups, buildGroupsLoop] at hbg
      simp at hbg
      subst hbg
      rfl
    · intro hT p hp
      simp only [List.mem_map] at hp
      obtain ⟨p0, _, hpeq⟩ := hp
      subst hpeq
      simp only [groupStat, if_pos hT]
    · intro hT
      simp only at hT ⊢
      have hTQ : ((allE.length : ℕ) : ℚ) ≠ 0 := Nat.cast_ne_zero.mpr hT
      have hper : ∀ p ∈ gs.map (fun p => (p.1, groupStat lib allE.length p.2)),
          p.2.percentage = round2 (((p.2.count : ℚ)) / ((allE.length : ℚ)) * 100) := by
        intro p hp
        simp only [List.mem_map] at hp
        obtain ⟨p0, _, hpeq⟩ := hp
        subst hpeq
        simp only [groupStat, if_pos hT]
      have hb : ∀ p ∈ gs.map (fun p => (p.1, groupStat lib allE.length p.2)),
          |p.2.percentage - ((p.2.count : ℚ)) / ((allE.length : ℚ)) * 100| ≤ 1 / 200 := by
        intro p hp
        rw [hper p hp]
        exact round2_sub_abs _
      have hsig := sum_abs_sub_le (fun p => p.2.percentage)
        (fun p => ((p.2.count : ℚ)) / ((allE.length : ℚ)) * 100) (1 / 200)
        (gs.map (fun p => (p.1, groupStat lib allE.length p.2))) hb
      have hgsum : ((gs.map (fun p => (p.1, groupStat lib allE.length p.2))).map
          (fun p => ((p.2.count : ℚ)) / ((allE.length : ℚ)) * 100)).sum = 100 := by
        rw [sum_cast_div, hcnt, div_self hTQ]
        norm_num
      rw [show ((gs.map (fun p => (p.1, groupStat lib allE.length p.2))).map
          (fun p => p.2.percentage)).sum - 100 =
          ((gs.map (fun p => (p.1, groupStat lib allE.length p.2))).map
            (fun p => p.2.percentage)).sum -
          ((gs.map (fun p => (p.1, groupStat lib allE.length p.2))).map
            (fun p => ((p.2.count : ℚ)) / ((allE.length : ℚ)) * 100)).sum from by
        rw [hgsum]]
      refine hsig.trans ?_
      rw [List.length_map]
      have : ((gs.length : ℕ) : ℚ) * (1 / 200) = (gs.length : ℚ) / 200 := by ring
      rw [this]

/-- C6 (witness): the counts/percentages theorem applied to the level
aggregation of the two-entry corpus. -/
theorem aggregate_counts_and_percentages_witness :
    aggregate_logs lib1 an1 fs1 none "level" = (.ok aggR, an1) ∧
    (((aggR.groups.map (fun p => p.2.count)).sum = aggR.total_entries) ∧
    (aggR.total_entries = 0 → aggR.groups = []) ∧
    (aggR.total_entries ≠ 0 → ∀ p ∈ aggR.groups,
      p.2.percentage = round2 (((p.2.count : ℚ)) / ((aggR.total_entries : ℚ)) * 100)) ∧
    (aggR.total_entries ≠ 0 →
      |(aggR.groups.map (fun p => p.2.percentage)).sum - 100| ≤
        (aggR.groups.length : ℚ) / 200)) :=
  ⟨rfl, aggregate_counts_and_percentages lib1 an1 fs1 none "level" aggR an1 rfl⟩

/-- C10: `total_files` of a successful `get_log_stats` is the number of
selected file names (the caller-supplied list, or all catalogued names),
counting names that failed to resolve or read; in particular, stats over
one nonexistent name reports `total_files = 1` with `total_entries = 0`. -/
theorem get_log_stats_total_files (lib : PyLib) (a : Analyzer) (fs : FS) :
    (∀ (files : Option (List String)) (r : CorpusStats) (a2 : Analyzer),
      get_log_stats lib a fs files = (.ok r, a2) →
      r.total_files = (selectedFiles a files).length) ∧
    (∀ name : String, a.cache.find? (fun p => p.1 = name) = none →
      (refreshCache a.logDirectory fs).find? (fun p => p.1 = name) = none →
      (get_log_stats lib a fs (some [name])).1 =
        .ok ⟨1, 0, [], [], 0, ⟨none, none, none⟩⟩) := by
  constructor
  · intro files r a2 h
    unfold get_log_stats at h
    rcases hsf : statsFiles lib a fs (selectedFiles a files) ⟨0, [], [], [], none, none⟩
      with ⟨racc, a3⟩
    simp only [hsf] at h
    rcases racc with er | acc
    · simp at h
    · rcases hsort : pySortedJson acc.modules with er | mods <;> simp only [hsort] at h
      · simp at h
      · simp only [Prod.mk.injEq, Except.ok.injEq] at h
        rcases h with ⟨hr, _⟩
        rw [← hr]
  · intro name hmiss hmiss2
    have hread : (read_log_file lib a fs name none).result = .error (.fileNotFound name) :=
      (read_log_file_missing_refreshes_once lib a fs name none hmiss).2 hmiss2
    have hsf : statsFiles lib a fs [name] ⟨0, [], [], [], none, none⟩ =
        (.ok ⟨0, [], [], [], none, none⟩, (read_log_file lib a fs name none).analyzer) := by
      unfold statsFiles
      simp only [hread]
      rfl
    unfold get_log_stats
    simp only [selectedFiles, hsf]
    rfl

/-- C10 (witness): the stats theorem applied to the empty directory — the
whole-catalog call and the one-missing-file call. -/
theorem get_log_stats_total_files_witness :
    get_log_stats lib1 anEmpty fsEmpty none =
      (.ok ⟨0, 0, [], [], 0, ⟨none, none, none⟩⟩, anEmpty) ∧
    (⟨0, 0, [], [], 0, ⟨none, none, none⟩⟩ : CorpusStats).total_files =
      (selectedFiles anEmpty none).length ∧
    anEmpty.cache.find? (fun p => p.1 = "missing.log") = none ∧
    (refreshCache anEmpty.logDirectory fsEmpty).find? (fun p => p.1 = "missing.log") = none ∧
    (get_log_stats lib1 anEmpty fsEmpty (some ["missing.log"])).1 =
      .ok ⟨1, 0, [], [], 0, ⟨none, none, none⟩⟩ :=
  ⟨rfl,
   (get_log_stats_total_files lib1 anEmpty fsEmpty).1 none
     ⟨0, 0, [], [], 0, ⟨none, none, none⟩⟩ anEmpty rfl,
   rfl, rfl,
   (get_log_stats_total_files lib1 anEmpty fsEmpty).2 "missing.log" rfl rfl⟩

end JsonLogs
